import Mathlib

/-!
Verification of the SVG rendering core of the `geo-svg` repository
(`src/svg_impl.rs`). The geometry types follow the `geo_types` crate
(`Point`, `Line`, `LineString`, `Polygon`, `Rect`, `Triangle`, the
`Multi*` wrappers and the recursive `Geometry` union); numeric
coordinates are modelled by the rationals, with the Rust float
formatting (`Debug` prints an integral value with a trailing `.0`,
`Display` without it) modelled by explicit digit-string functions.
The `ViewBox`, `Style` and `PointType` values live outside the staged
source file and are modelled from the specification, as marked on each.
-/

namespace GeoSvg

/-! ## Rust numeric formatting, modelled over the rationals -/

/-- One decimal digit character for `k % 10`. -/
def digitChar (k : Nat) : Char :=
  match k % 10 with
  | 0 => '0' | 1 => '1' | 2 => '2' | 3 => '3' | 4 => '4'
  | 5 => '5' | 6 => '6' | 7 => '7' | 8 => '8' | _ => '9'

/-- Fuelled digit accumulator for base-10 printing of a natural number. -/
def natReprAux : Nat → Nat → List Char → List Char
  | 0, _, acc => acc
  | fuel + 1, n, acc =>
      if n < 10 then digitChar n :: acc
      else natReprAux fuel (n / 10) (digitChar (n % 10) :: acc)

/-- Base-10 rendering of a natural number (models Rust integer `Display`). -/
def natRepr (n : Nat) : String := ⟨natReprAux (n + 1) n []⟩

/-- Base-10 rendering of an integer (models Rust integer `Display`). -/
def intRepr (i : Int) : String :=
  (if i < 0 then "-" else "") ++ natRepr i.natAbs

/-- Fuelled fractional-digit expansion of `r / d` after the decimal point. -/
def fracDigits : Nat → Nat → Nat → List Char
  | 0, _, _ => []
  | fuel + 1, r, d =>
      if r = 0 then []
      else digitChar (r * 10 / d) :: fracDigits fuel (r * 10 % d) d

/-- Rust `Debug` formatting of a float, over the rationals: an integral
value prints with a trailing `.0`, a fractional one with its decimal
expansion (cut off after 32 digits). Exact for the integral values the
claims evaluate. -/
def fmtF (q : ℚ) : String :=
  (if q.num < 0 then "-" else "") ++
    (let n := q.num.natAbs
     let ip := n / q.den
     let fp := n % q.den
     if fp = 0 then natRepr ip ++ ".0"
     else natRepr ip ++ "." ++ ⟨fracDigits 32 fp q.den⟩)

/-- Rust `Display` formatting of a float, over the rationals: an integral
value prints without a trailing `.0`. -/
def fmtDisp (q : ℚ) : String :=
  (if q.num < 0 then "-" else "") ++
    (let n := q.num.natAbs
     let ip := n / q.den
     let fp := n % q.den
     if fp = 0 then natRepr ip
     else natRepr ip ++ "." ++ ⟨fracDigits 32 fp q.den⟩)

/-! ## ViewBox: the bounding-box accumulator.

Modelled from the spec: the `ViewBox` type itself is not part of the
staged source file. Per the spec it is an axis-aligned rectangle
(min-x, min-y, max-x, max-y) whose `default()` is an "empty" rectangle
"whose min/max extremes never win against any real value (conceptually
±infinity, or equivalently a sentinel the implementation
special-cases)"; the sentinel is modelled by `Option ℚ` with `none` for
the absent extreme. -/

/-- Componentwise combination of two optional extremes: the `none`
sentinel never wins, two real values combine by `f` (`min` for the
minima, `max` for the maxima). Modelled from the spec. -/
def optOp (f : ℚ → ℚ → ℚ) : Option ℚ → Option ℚ → Option ℚ
  | none, b => b
  | some a, none => some a
  | some a, some b => some (f a b)

/-- Modelled from the spec: the bounding rectangle accumulator. -/
structure ViewBox where
  min_x : Option ℚ
  min_y : Option ℚ
  max_x : Option ℚ
  max_y : Option ℚ
deriving DecidableEq

/-- Modelled from the spec: `ViewBox::new` with four real extremes. -/
def ViewBox.new (a b c d : ℚ) : ViewBox := ⟨some a, some b, some c, some d⟩

/-- Modelled from the spec: `ViewBox::default()`, the union identity. -/
def ViewBox.default : ViewBox := ⟨none, none, none, none⟩

/-- Modelled from the spec: `add` returns the componentwise union
(min of the minima, max of the maxima). -/
def ViewBox.add (a b : ViewBox) : ViewBox :=
  ⟨optOp min a.min_x b.min_x, optOp min a.min_y b.min_y,
   optOp max a.max_x b.max_x, optOp max a.max_y b.max_y⟩

/-- A real lower extreme at most `x`; the `none` sentinel (conceptually
`+∞` for a minimum) is below no real value. -/
def leOpt (m : Option ℚ) (x : ℚ) : Prop :=
  match m with
  | some v => v ≤ x
  | none => False

/-- A real upper extreme at least `x`; the `none` sentinel (conceptually
`-∞` for a maximum) is above no real value. -/
def geOpt (m : Option ℚ) (x : ℚ) : Prop :=
  match m with
  | some v => x ≤ v
  | none => False

instance (m : Option ℚ) (x : ℚ) : Decidable (leOpt m x) :=
  match m with
  | some v => inferInstanceAs (Decidable (v ≤ x))
  | none => .isFalse fun h => h

instance (m : Option ℚ) (x : ℚ) : Decidable (geOpt m x) :=
  match m with
  | some v => inferInstanceAs (Decidable (x ≤ v))
  | none => .isFalse fun h => h

/-- The rectangle contains the coordinate `(x, y)`:
`min_x ≤ x ≤ max_x` and `min_y ≤ y ≤ max_y`. -/
def ViewBox.contains (vb : ViewBox) (x y : ℚ) : Prop :=
  leOpt vb.min_x x ∧ leOpt vb.min_y y ∧ geOpt vb.max_x x ∧ geOpt vb.max_y y

instance (vb : ViewBox) (x y : ℚ) : Decidable (vb.contains x y) :=
  inferInstanceAs (Decidable (_ ∧ _ ∧ _ ∧ _))

/-! ## Style: the external read-only configuration.

Modelled from the spec: the `Style` and `PointType` values live in the
style collaborator, outside the staged source file. The opaque output of
the style attribute renderer (the `{style}` interpolation, "directly
insertable inside an SVG element's attribute list") is carried as the
`attrs` string field. -/

/-- Modelled from the spec: the point-display-mode selector. -/
inductive PointType
  | Circle
  | Symbol
  | Text
  | Poi
deriving DecidableEq

/-- Modelled from the spec: the style fields the rendering core reads. -/
structure Style where
  point_type : Option PointType
  text : Option String
  text_classes : Option String
  text_start_offset : Option ℚ
  id : Option String
  radius : ℚ
  stroke_width : Option ℚ
  icon_svg_viewbox : Option (Int × Int × Int × Int)
  icon_svg_width_height : Option (Int × Int)
  icon_svg_path : Option String
  attrs : String
deriving DecidableEq

/-! ## The geometry model (after the `geo_types` crate).

Coordinates are rational pairs; `Coordinate` and `Point` of `geo_types`
are identified (the source converts between them with `Point::from`,
an identity on the coordinate pair). The `NumCast`-with-`unwrap_or(0)`
coercion of the source is exact on this model. -/

/-- A point (also standing for a `geo_types` `Coordinate`). -/
structure Point where
  x : ℚ
  y : ℚ
deriving DecidableEq

/-- A line segment; `endp` embeds the Rust field `end` (a Lean keyword). -/
structure Line where
  start : Point
  endp : Point
deriving DecidableEq

/-- A line string: an ordered list of coordinates. -/
structure LineString where
  coords : List Point
deriving DecidableEq

/-- The consecutive-pair segments of a line string
(`LineString::lines`, windows of size two). -/
def LineString.lines (ls : LineString) : List Line :=
  List.zipWith Line.mk ls.coords ls.coords.tail

/-- Whether the first and last coordinates agree
(`LineString::is_closed`; an empty line string counts as closed). -/
def LineString.closed (ls : LineString) : Bool :=
  ls.coords.head? = ls.coords.getLast?

/-- Close a ring by appending its first coordinate when it is not
already closed (`LineString::close`). -/
def LineString.close (ls : LineString) : LineString :=
  match ls.coords with
  | [] => ls
  | p :: _ => if ls.closed then ls else ⟨ls.coords ++ [p]⟩

/-- A polygon: exterior ring and interior (hole) rings. -/
structure Polygon where
  exterior : LineString
  interiors : List LineString
deriving DecidableEq

/-- The `Polygon::new` constructor, which closes every ring. -/
def Polygon.new (ext : LineString) (ints : List LineString) : Polygon :=
  ⟨ext.close, ints.map LineString.close⟩

/-- An axis-aligned rectangle, stored by two corners. -/
structure Rect where
  min : Point
  max : Point
deriving DecidableEq

/-- The `geo_types` conversion `Rect::to_polygon` (also `Polygon::from`):
the four corners as a closed ring, no holes. -/
def Rect.to_polygon (r : Rect) : Polygon :=
  Polygon.new
    ⟨[⟨r.min.x, r.min.y⟩, ⟨r.max.x, r.min.y⟩, ⟨r.max.x, r.max.y⟩,
      ⟨r.min.x, r.max.y⟩, ⟨r.min.x, r.min.y⟩]⟩ []

/-- A triangle, by its three vertices. -/
structure Triangle where
  v0 : Point
  v1 : Point
  v2 : Point
deriving DecidableEq

/-- The `geo_types` conversion `Triangle::to_polygon`: the three
vertices as a ring (closed by `Polygon::new`), no holes. The source's
direct `Triangle` impl builds the same `Polygon::new(to_array(), vec![])`. -/
def Triangle.to_polygon (t : Triangle) : Polygon :=
  Polygon.new ⟨[t.v0, t.v1, t.v2]⟩ []

/-- A multi-point. -/
structure MultiPoint where
  points : List Point
deriving DecidableEq

/-- A multi-line-string. -/
structure MultiLineString where
  line_strings : List LineString
deriving DecidableEq

/-- A multi-polygon. -/
structure MultiPolygon where
  polygons : List Polygon
deriving DecidableEq

/-- The closed geometry union; a collection holds any geometries,
recursively. -/
inductive Geometry
  | point : Point → Geometry
  | line : Line → Geometry
  | lineString : LineString → Geometry
  | polygon : Polygon → Geometry
  | rect : Rect → Geometry
  | triangle : Triangle → Geometry
  | multiPoint : MultiPoint → Geometry
  | multiLineString : MultiLineString → Geometry
  | multiPolygon : MultiPolygon → Geometry
  | geometryCollection : List Geometry → Geometry

/-! ## Rendering and bounds, translated from `src/svg_impl.rs` -/

/-- Concatenation of a list of strings (Rust `collect::<String>()`). -/
def strJoin : List String → String
  | [] => ""
  | s :: rest => s ++ strJoin rest

/-- Join with single-space separators
(Rust `reduce(|a, b| format!("{} {}", a, b)).unwrap_or("")`). -/
def joinSp : List String → String
  | [] => ""
  | s :: rest => rest.foldl (fun a b => a ++ " " ++ b) s

/-- `Point::to_svg_str`: four display modes selected by the style, the
no-mode fallback carrying the `alt="point_type_none"` marker. -/
def Point.to_svg_str (p : Point) (s : Style) : String :=
  match s.point_type with
  | some PointType.Text =>
      "<text class=\"" ++ (s.text_classes.getD "") ++ "\" x=\"" ++ fmtF p.x ++
        "\" y=\"" ++ fmtF p.y ++ "\" " ++ s.attrs ++ ">" ++ (s.text.getD "") ++ "</text>"
  | some PointType.Poi =>
      let vb := s.icon_svg_viewbox.getD (0, 0, 100, 100)
      let wh := s.icon_svg_width_height.getD (60, 60)
      let w : ℚ := (wh.1 : ℚ)
      let h : ℚ := (wh.2 : ℚ)
      let text :=
        match s.text with
        | some t =>
            "<text x=\"" ++ fmtF (p.x + w / 2 + 15) ++ "\" y=\"" ++
              fmtF (p.y + h - 45) ++ "\">" ++ t ++ "</text>"
        | none => ""
      "<svg x=\"" ++ fmtF (p.x - w / 2) ++ "\" y=\"" ++ fmtF (p.y - h / 2) ++
        "\" width=\"" ++ intRepr wh.1 ++ "\" height=\"" ++ intRepr wh.2 ++
        "\" viewBox=\"" ++ intRepr vb.1 ++ " " ++ intRepr vb.2.1 ++ " " ++
        intRepr vb.2.2.1 ++ " " ++ intRepr vb.2.2.2 ++ "\" " ++ s.attrs ++ ">" ++
        (s.icon_svg_path.getD "") ++ "</svg>" ++ text
  | some PointType.Symbol =>
      "<circle cx=\"" ++ fmtF p.x ++ "\" cy=\"" ++ fmtF p.y ++ "\" r=\"" ++
        fmtDisp s.radius ++ "\"" ++ s.attrs ++ "/>"
  | some PointType.Circle =>
      "<circle cx=\"" ++ fmtF p.x ++ "\" cy=\"" ++ fmtF p.y ++ "\" r=\"" ++
        fmtDisp s.radius ++ "\"" ++ s.attrs ++ "/>"
  | none =>
      "<circle alt=\"point_type_none\" cx=\"" ++ fmtF p.x ++ "\" cy=\"" ++
        fmtF p.y ++ "\" r=\"" ++ fmtDisp s.radius ++ "\"" ++ s.attrs ++ "/>"

/-- `Point::viewbox`: a square of half-extent
`radius + stroke_width.unwrap_or(1.0)` centered on the point,
whatever the point mode. -/
def Point.viewbox (p : Point) (s : Style) : ViewBox :=
  let radius := s.radius + s.stroke_width.getD 1
  ViewBox.new (p.x - radius) (p.y - radius) (p.x + radius) (p.y + radius)

/-- `MultiPoint::to_svg_str`: concatenation of the member renders. -/
def MultiPoint.to_svg_str (mp : MultiPoint) (s : Style) : String :=
  strJoin (mp.points.map fun p => p.to_svg_str s)

/-- `MultiPoint::viewbox`: left fold of `add` seeded with the default. -/
def MultiPoint.viewbox (mp : MultiPoint) (s : Style) : ViewBox :=
  mp.points.foldl (fun vb p => vb.add (p.viewbox s)) ViewBox.default

/-- `Line::to_svg_str`: a two-point open path. -/
def Line.to_svg_str (l : Line) (s : Style) : String :=
  "<path d=\"M " ++ fmtF l.start.x ++ " " ++ fmtF l.start.y ++ " L " ++
    fmtF l.endp.x ++ " " ++ fmtF l.endp.y ++ "\"" ++ s.attrs ++ "/>"

/-- `Line::viewbox`: the union of the endpoint bounds under the style
with `radius` overridden to zero. -/
def Line.viewbox (l : Line) (s : Style) : ViewBox :=
  let s0 : Style := { s with radius := 0 }
  (l.start.viewbox s0).add (l.endp.viewbox s0)

/-- One segment of a line-string path; the source format string
`"M {x1:?} {y1:?} L {x2:?}  {y2:?}"` has two blanks before `y2`. -/
def segStr (l : Line) : String :=
  "M " ++ fmtF l.start.x ++ " " ++ fmtF l.start.y ++ " L " ++
    fmtF l.endp.x ++ "  " ++ fmtF l.endp.y

/-- The `d` attribute of a line string: the segment commands joined by
single spaces. -/
def lineStringD (ls : LineString) : String :=
  joinSp (ls.lines.map segStr)

/-- The start-offset fragment of the text-on-path element:
`startOffset="…"` when `text_start_offset` is set, empty otherwise. -/
def startOffsetAttr (s : Style) : String :=
  match s.text_start_offset with
  | some o => "startOffset=\"" ++ fmtDisp o ++ "\""
  | none => ""

/-- The text-on-path part of a line-string render: emitted only when
both `text` and `id` are set. -/
def textPart (s : Style) : String :=
  match s.text, s.id with
  | some t, some i =>
      "<text class=\"" ++ (s.text_classes.getD "") ++ "\"><textPath xlink:href=\"#" ++
        i ++ "\"" ++ startOffsetAttr s ++ ">" ++ t ++ "<textPath/></text>"
  | _, _ => ""

/-- `LineString::to_svg_str`: the path element and then the (possibly
empty) text-on-path part. -/
def LineString.to_svg_str (ls : LineString) (s : Style) : String :=
  "<path d=\"" ++ lineStringD ls ++ "\"" ++ s.attrs ++ "/>" ++ textPart s

/-- `LineString::viewbox`: fold of the per-segment line bounds. -/
def LineString.viewbox (ls : LineString) (s : Style) : ViewBox :=
  ls.lines.foldl (fun vb l => vb.add (l.viewbox s)) ViewBox.default

/-- `MultiLineString::to_svg_str`. -/
def MultiLineString.to_svg_str (m : MultiLineString) (s : Style) : String :=
  strJoin (m.line_strings.map fun ls => ls.to_svg_str s)

/-- `MultiLineString::viewbox`. -/
def MultiLineString.viewbox (m : MultiLineString) (s : Style) : ViewBox :=
  m.line_strings.foldl (fun vb ls => vb.add (ls.viewbox s)) ViewBox.default

/-- One closed subpath of a polygon path: move to the first vertex,
line to each later vertex, close with `" Z "`; an empty ring
contributes just `" Z "`. -/
def contourPath (c : LineString) : String :=
  (match c.coords with
   | [] => ""
   | p :: rest =>
       "M " ++ fmtF p.x ++ " " ++ fmtF p.y ++
         strJoin (rest.map fun q => " L " ++ fmtF q.x ++ " " ++ fmtF q.y)) ++ " Z "

/-- The `d` attribute of a polygon: the exterior subpath and then each
interior subpath, concatenated. -/
def Polygon.pathD (p : Polygon) : String :=
  strJoin ((p.exterior :: p.interiors).map contourPath)

/-- `Polygon::to_svg_str`: one path element under the even-odd fill rule. -/
def Polygon.to_svg_str (p : Polygon) (s : Style) : String :=
  "<path fill-rule=\"evenodd\" d=\"" ++ p.pathD ++ "\"" ++ s.attrs ++ "/>"

/-- `Polygon::viewbox`: fold of the per-segment line bounds over the
exterior edges and then every interior edge. -/
def Polygon.viewbox (p : Polygon) (s : Style) : ViewBox :=
  (p.exterior.lines ++ (p.interiors.map LineString.lines).flatten).foldl
    (fun vb l => vb.add (l.viewbox s)) ViewBox.default

/-- `Rect::to_svg_str`: renders as `Polygon::from(*self)`. -/
def Rect.to_svg_str (r : Rect) (s : Style) : String :=
  r.to_polygon.to_svg_str s

/-- `Rect::viewbox`: bounds as `Polygon::from(*self)`. -/
def Rect.viewbox (r : Rect) (s : Style) : ViewBox :=
  r.to_polygon.viewbox s

/-- `Triangle::to_svg_str`: renders as
`Polygon::new(self.to_array().collect(), vec![])`. -/
def Triangle.to_svg_str (t : Triangle) (s : Style) : String :=
  (Polygon.new ⟨[t.v0, t.v1, t.v2]⟩ []).to_svg_str s

/-- `Triangle::viewbox`: bounds as the same degenerate polygon. -/
def Triangle.viewbox (t : Triangle) (s : Style) : ViewBox :=
  (Polygon.new ⟨[t.v0, t.v1, t.v2]⟩ []).viewbox s

/-- `MultiPolygon::to_svg_str`. -/
def MultiPolygon.to_svg_str (m : MultiPolygon) (s : Style) : String :=
  strJoin (m.polygons.map fun p => p.to_svg_str s)

/-- `MultiPolygon::viewbox`. -/
def MultiPolygon.viewbox (m : MultiPolygon) (s : Style) : ViewBox :=
  m.polygons.foldl (fun vb p => vb.add (p.viewbox s)) ViewBox.default

mutual

/-- `Geometry::to_svg_str`: the exhaustive variant dispatcher;
`Triangle` and `Rect` are normalized through `to_polygon`. -/
def Geometry.to_svg_str : Geometry → Style → String
  | .point p, s => p.to_svg_str s
  | .line l, s => l.to_svg_str s
  | .lineString ls, s => ls.to_svg_str s
  | .polygon p, s => p.to_svg_str s
  | .rect r, s => r.to_polygon.to_svg_str s
  | .triangle t, s => t.to_polygon.to_svg_str s
  | .multiPoint mp, s => mp.to_svg_str s
  | .multiLineString m, s => m.to_svg_str s
  | .multiPolygon m, s => m.to_svg_str s
  | .geometryCollection gs, s => geomListStr gs s

/-- `GeometryCollection::to_svg_str`: concatenation of the member
renders, the dispatcher applied to each member. -/
def geomListStr : List Geometry → Style → String
  | [], _ => ""
  | g :: gs, s => g.to_svg_str s ++ geomListStr gs s

end

mutual

/-- `Geometry::viewbox`: the exhaustive variant dispatcher;
`Triangle` and `Rect` are normalized through `to_polygon`. -/
def Geometry.viewbox : Geometry → Style → ViewBox
  | .point p, s => p.viewbox s
  | .line l, s => l.viewbox s
  | .lineString ls, s => ls.viewbox s
  | .polygon p, s => p.viewbox s
  | .rect r, s => r.to_polygon.viewbox s
  | .triangle t, s => t.to_polygon.viewbox s
  | .multiPoint mp, s => mp.viewbox s
  | .multiLineString m, s => m.viewbox s
  | .multiPolygon m, s => m.viewbox s
  | .geometryCollection gs, s => geomListVb gs s ViewBox.default

/-- `GeometryCollection::viewbox`: the left fold of `add` over the
member bounds, written with its accumulator. -/
def geomListVb : List Geometry → Style → ViewBox → ViewBox
  | [], _, acc => acc
  | g :: gs, s, acc => geomListVb gs s (acc.add (g.viewbox s))

end

/-- The `ToSvgStr` trait: render and bound for any geometry-like value. -/
class ToSvgStr (α : Type) where
  to_svg_str : α → Style → String
  viewbox : α → Style → ViewBox

instance : ToSvgStr Point := ⟨Point.to_svg_str, Point.viewbox⟩

instance : ToSvgStr Geometry := ⟨Geometry.to_svg_str, Geometry.viewbox⟩

/-- The `Vec<T>` / `&[T]` adapter: concatenation of the member renders. -/
def listToSvgStr {α : Type} [ToSvgStr α] (xs : List α) (s : Style) : String :=
  strJoin (xs.map fun x => ToSvgStr.to_svg_str x s)

/-- The `Vec<T>` / `&[T]` adapter: left fold of `add` over the member
bounds, seeded with the default. -/
def listViewbox {α : Type} [ToSvgStr α] (xs : List α) (s : Style) : ViewBox :=
  xs.foldl (fun vb x => vb.add (ToSvgStr.viewbox x s)) ViewBox.default

/-! ## String search and character accounting -/

/-- Whether `p` is an initial run of `s`. -/
def isPre : List Char → List Char → Bool
  | [], _ => true
  | _ :: _, [] => false
  | c :: cs, d :: ds => c == d && isPre cs ds

/-- Whether `p` occurs contiguously inside `s`. -/
def hasSub (p : List Char) : List Char → Bool
  | [] => isPre p []
  | d :: rest => isPre p (d :: rest) || hasSub p rest

/-- Whether the string `pat` occurs contiguously inside the string `s`. -/
def containsStr (s pat : String) : Bool := hasSub pat.data s.data

/-- How many times the character `c` occurs in the string `s`. -/
def countChar (c : Char) (s : String) : Nat := s.data.count c

theorem isPre_iff (p s : List Char) : isPre p s = true ↔ ∃ r, s = p ++ r := by
  induction p generalizing s with
  | nil => simp [isPre]
  | cons c cs ih =>
      cases s with
      | nil => simp [isPre]
      | cons d ds =>
          simp only [isPre, Bool.and_eq_true, beq_iff_eq, ih, List.cons_append,
            List.cons.injEq]
          constructor
          · rintro ⟨rfl, r, rfl⟩; exact ⟨r, rfl, rfl⟩
          · rintro ⟨r, rfl, rfl⟩; exact ⟨rfl, r, rfl⟩

theorem hasSub_iff (p s : List Char) : hasSub p s = true ↔ ∃ l r, s = l ++ (p ++ r) := by
  induction s with
  | nil =>
      simp only [hasSub, isPre_iff]
      constructor
      · rintro ⟨r, h⟩; exact ⟨[], r, h⟩
      · rintro ⟨l, r, h⟩
        rcases List.append_eq_nil.mp h.symm with ⟨rfl, h2⟩
        exact ⟨r, h2.symm⟩
  | cons d ds ih =>
      simp only [hasSub, Bool.or_eq_true, isPre_iff, ih]
      constructor
      · rintro (⟨r, h⟩ | ⟨l, r, h⟩)
        · exact ⟨[], r, h⟩
        · exact ⟨d :: l, r, by simp [h]⟩
      · rintro ⟨l, r, h⟩
        cases l with
        | nil => exact Or.inl ⟨r, h⟩
        | cons e l =>
            right
            rcases List.cons.injEq d ds e (l ++ (p ++ r)) ▸ h with ⟨-, h2⟩
            exact ⟨l, r, (List.cons_eq_cons.mp h).2⟩

theorem hasSub_of_decomp {p s : List Char} (l r : List Char)
    (h : s = l ++ (p ++ r)) : hasSub p s = true :=
  (hasSub_iff p s).mpr ⟨l, r, h⟩

/-- The characters that occur in path data outside the closing `Z`:
digits, minus, dot, the commands `M` and `L`, and the blank. -/
def pathChar (c : Char) : Bool :=
  c == '0' || c == '1' || c == '2' || c == '3' || c == '4' || c == '5' ||
    c == '6' || c == '7' || c == '8' || c == '9' || c == '-' || c == '.' ||
    c == 'M' || c == 'L' || c == ' '

theorem digitChar_pathChar (k : Nat) : pathChar (digitChar k) = true := by
  unfold digitChar
  split <;> rfl

theorem natReprAux_chars (fuel n : Nat) (acc : List Char)
    (hacc : ∀ c ∈ acc, pathChar c = true) :
    ∀ c ∈ natReprAux fuel n acc, pathChar c = true := by
  induction fuel generalizing n acc with
  | zero => exact hacc
  | succ fuel ih =>
      unfold natReprAux
      split
      · intro c hc
        rcases List.mem_cons.mp hc with rfl | hc
        · exact digitChar_pathChar n
        · exact hacc c hc
      · refine ih _ _ ?_
        intro c hc
        rcases List.mem_cons.mp hc with rfl | hc
        · exact digitChar_pathChar _
        · exact hacc c hc

theorem natRepr_chars (n : Nat) : ∀ c ∈ (natRepr n).data, pathChar c = true :=
  natReprAux_chars (n + 1) n [] (by intro c hc; cases hc)

theorem fracDigits_chars (fuel r d : Nat) :
    ∀ c ∈ fracDigits fuel r d, pathChar c = true := by
  induction fuel generalizing r with
  | zero => intro c hc; cases hc
  | succ fuel ih =>
      unfold fracDigits
      split
      · intro c hc; cases hc
      · intro c hc
        rcases List.mem_cons.mp hc with rfl | hc
        · exact digitChar_pathChar _
        · exact ih _ c hc

theorem pathChar_of_mem_lit {c : Char} {l : List Char}
    (hl : l.all pathChar = true) (hc : c ∈ l) : pathChar c = true :=
  List.all_eq_true.mp hl c hc

theorem intRepr_chars (i : Int) : ∀ c ∈ (intRepr i).data, pathChar c = true := by
  intro c hc
  unfold intRepr at hc
  rw [String.data_append] at hc
  rcases List.mem_append.mp hc with hc | hc
  · split at hc
    · exact pathChar_of_mem_lit (by decide) hc
    · cases hc
  · exact natRepr_chars _ c hc

theorem fmtF_chars (q : ℚ) : ∀ c ∈ (fmtF q).data, pathChar c = true := by
  intro c hc
  unfold fmtF at hc
  rw [String.data_append] at hc
  rcases List.mem_append.mp hc with hc | hc
  · split at hc
    · exact pathChar_of_mem_lit (by decide) hc
    · cases hc
  · simp only at hc
    split at hc
    · rw [String.data_append] at hc
      rcases List.mem_append.mp hc with hc | hc
      · exact natRepr_chars _ c hc
      · exact pathChar_of_mem_lit (by decide) hc
    · rw [String.data_append, String.data_append] at hc
      rcases List.mem_append.mp hc with hc | hc
      · rcases List.mem_append.mp hc with hc | hc
        · exact natRepr_chars _ c hc
        · exact pathChar_of_mem_lit (by decide) hc
      · exact fracDigits_chars _ _ _ c hc

theorem fmtDisp_chars (q : ℚ) : ∀ c ∈ (fmtDisp q).data, pathChar c = true := by
  intro c hc
  unfold fmtDisp at hc
  rw [String.data_append] at hc
  rcases List.mem_append.mp hc with hc | hc
  · split at hc
    · exact pathChar_of_mem_lit (by decide) hc
    · cases hc
  · simp only at hc
    split at hc
    · exact natRepr_chars _ c hc
    · rw [String.data_append, String.data_append] at hc
      rcases List.mem_append.mp hc with hc | hc
      · rcases List.mem_append.mp hc with hc | hc
        · exact natRepr_chars _ c hc
        · exact pathChar_of_mem_lit (by decide) hc
      · exact fracDigits_chars _ _ _ c hc

/-! ## The coordinates of a geometry, and containment in a bound -/

/-- Every coordinate a polygon carries: the exterior ring's and then
each interior ring's. -/
def Polygon.coords (p : Polygon) : List Point :=
  p.exterior.coords ++ (p.interiors.map LineString.coords).flatten

mutual

/-- Every coordinate a geometry carries (a rectangle contributes its
four corners, a triangle its three vertices). -/
def Geometry.coords : Geometry → List Point
  | .point p => [p]
  | .line l => [l.start, l.endp]
  | .lineString ls => ls.coords
  | .polygon p => p.coords
  | .rect r => [r.min, ⟨r.max.x, r.min.y⟩, r.max, ⟨r.min.x, r.max.y⟩]
  | .triangle t => [t.v0, t.v1, t.v2]
  | .multiPoint mp => mp.points
  | .multiLineString m => (m.line_strings.map LineString.coords).flatten
  | .multiPolygon m => (m.polygons.map Polygon.coords).flatten
  | .geometryCollection gs => geomListCoords gs

/-- The coordinates of a list of geometries, in order. -/
def geomListCoords : List Geometry → List Point
  | [] => []
  | g :: gs => g.coords ++ geomListCoords gs

end

/-- A ring or line string is degenerate when it has exactly one
coordinate: it then draws a visible vertex but spans no segment, so a
fold over its segments sees nothing. -/
def LineString.nondegenerate (ls : LineString) : Bool :=
  ls.coords.length != 1

/-- Every ring of the polygon is nondegenerate. -/
def Polygon.nondegenerate (p : Polygon) : Bool :=
  p.exterior.nondegenerate && p.interiors.all LineString.nondegenerate

mutual

/-- No line string or ring anywhere in the geometry has exactly one
coordinate. -/
def Geometry.wf : Geometry → Bool
  | .point _ => true
  | .line _ => true
  | .lineString ls => ls.nondegenerate
  | .polygon p => p.nondegenerate
  | .rect _ => true
  | .triangle _ => true
  | .multiPoint _ => true
  | .multiLineString m => m.line_strings.all LineString.nondegenerate
  | .multiPolygon m => m.polygons.all Polygon.nondegenerate
  | .geometryCollection gs => geomListWf gs

/-- Well-formedness of a list of geometries. -/
def geomListWf : List Geometry → Bool
  | [] => true
  | g :: gs => g.wf && geomListWf gs

end

/-- Nonnegative visual padding: the stroke padding
`stroke_width.unwrap_or(1.0)` and the point padding
`radius + stroke_width.unwrap_or(1.0)` are both nonnegative. -/
def padsOK (s : Style) : Prop :=
  0 ≤ s.stroke_width.getD 1 ∧ 0 ≤ s.radius + s.stroke_width.getD 1

theorem leOpt_optOp_min_left {a : Option ℚ} (b : Option ℚ) {x : ℚ}
    (h : leOpt a x) : leOpt (optOp min a b) x := by
  cases a with
  | none => cases h
  | some v =>
      cases b with
      | none => exact h
      | some w => exact le_trans (min_le_left v w) h

theorem leOpt_optOp_min_right (a : Option ℚ) {b : Option ℚ} {x : ℚ}
    (h : leOpt b x) : leOpt (optOp min a b) x := by
  cases b with
  | none => cases h
  | some w =>
      cases a with
      | none => exact h
      | some v => exact le_trans (min_le_right v w) h

theorem geOpt_optOp_max_left {a : Option ℚ} (b : Option ℚ) {x : ℚ}
    (h : geOpt a x) : geOpt (optOp max a b) x := by
  cases a with
  | none => cases h
  | some v =>
      cases b with
      | none => exact h
      | some w => exact le_trans h (le_max_left v w)

theorem geOpt_optOp_max_right (a : Option ℚ) {b : Option ℚ} {x : ℚ}
    (h : geOpt b x) : geOpt (optOp max a b) x := by
  cases b with
  | none => cases h
  | some w =>
      cases a with
      | none => exact h
      | some v => exact le_trans h (le_max_right v w)

theorem contains_add_left {a : ViewBox} (b : ViewBox) {x y : ℚ}
    (h : a.contains x y) : (a.add b).contains x y :=
  ⟨leOpt_optOp_min_left _ h.1, leOpt_optOp_min_left _ h.2.1,
   geOpt_optOp_max_left _ h.2.2.1, geOpt_optOp_max_left _ h.2.2.2⟩

theorem contains_add_right (a : ViewBox) {b : ViewBox} {x y : ℚ}
    (h : b.contains x y) : (a.add b).contains x y :=
  ⟨leOpt_optOp_min_right _ h.1, leOpt_optOp_min_right _ h.2.1,
   geOpt_optOp_max_right _ h.2.2.1, geOpt_optOp_max_right _ h.2.2.2⟩

theorem contains_foldl {α : Type} (f : α → ViewBox) (l : List α)
    (acc : ViewBox) (x y : ℚ)
    (h : acc.contains x y ∨ ∃ a ∈ l, (f a).contains x y) :
    (l.foldl (fun vb a => vb.add (f a)) acc).contains x y := by
  induction l generalizing acc with
  | nil =>
      rcases h with h | ⟨a, ha, _⟩
      · exact h
      · cases ha
  | cons b bs ih =>
      simp only [List.foldl_cons]
      refine ih (acc.add (f b)) ?_
      rcases h with h | ⟨a, ha, hc⟩
      · exact Or.inl (contains_add_left _ h)
      · rcases List.mem_cons.mp ha with rfl | ha
        · exact Or.inl (contains_add_right _ hc)
        · exact Or.inr ⟨a, ha, hc⟩

theorem point_viewbox_contains (p : Point) (s : Style)
    (h : 0 ≤ s.radius + s.stroke_width.getD 1) :
    (p.viewbox s).contains p.x p.y := by
  refine ⟨?_, ?_, ?_, ?_⟩ <;>
    simp only [Point.viewbox, ViewBox.new, leOpt, geOpt] <;> linarith

theorem line_viewbox_contains (l : Line) (s : Style)
    (h : 0 ≤ s.stroke_width.getD 1) :
    (l.viewbox s).contains l.start.x l.start.y ∧
      (l.viewbox s).contains l.endp.x l.endp.y := by
  have h0 : 0 ≤ ({ s with radius := 0 } : Style).radius +
      ({ s with radius := 0 } : Style).stroke_width.getD 1 := by
    simpa using h
  exact ⟨contains_add_left _ (point_viewbox_contains l.start _ h0),
    contains_add_right _ (point_viewbox_contains l.endp _ h0)⟩

/-- In a line string with two or more coordinates, every coordinate is
an endpoint of one of the consecutive-pair segments. -/
theorem zip_cover (l : List Point) (hlen : l.length ≠ 1) :
    ∀ c ∈ l, ∃ seg ∈ List.zipWith Line.mk l l.tail,
      c = seg.start ∨ c = seg.endp := by
  induction l with
  | nil => intro c hc; cases hc
  | cons a rest ih =>
      cases rest with
      | nil => simp at hlen
      | cons b rest2 =>
          intro c hc
          rcases List.mem_cons.mp hc with rfl | hc
          · exact ⟨⟨c, b⟩, List.mem_cons_self _ _, Or.inl rfl⟩
          · cases rest2 with
            | nil =>
                rcases List.mem_singleton.mp hc with rfl
                exact ⟨⟨a, c⟩, List.mem_cons_self _ _, Or.inr rfl⟩
            | cons d rest3 =>
                rcases ih (by simp) c hc with ⟨seg, hseg, hc2⟩
                exact ⟨seg, List.mem_cons_of_mem _ hseg, hc2⟩

/-- In a line string with a coordinate count other than one, every
coordinate is an endpoint of one of the consecutive-pair segments. -/
theorem mem_coords_endpoint (ls : LineString)
    (hlen : ls.coords.length ≠ 1) :
    ∀ c ∈ ls.coords, ∃ l ∈ ls.lines, c = l.start ∨ c = l.endp :=
  zip_cover ls.coords hlen

theorem lineString_viewbox_contains (ls : LineString) (s : Style)
    (hnd : ls.nondegenerate = true) (hsw : 0 ≤ s.stroke_width.getD 1) :
    ∀ c ∈ ls.coords, (ls.viewbox s).contains c.x c.y := by
  intro c hc
  have hlen : ls.coords.length ≠ 1 := by
    simpa [LineString.nondegenerate] using hnd
  rcases mem_coords_endpoint ls hlen c hc with ⟨l, hl, hcl⟩
  refine contains_foldl _ _ _ _ _ (Or.inr ⟨l, hl, ?_⟩)
  rcases line_viewbox_contains l s hsw with ⟨h1, h2⟩
  rcases hcl with rfl | rfl
  · exact h1
  · exact h2

theorem polygon_viewbox_contains (p : Polygon) (s : Style)
    (hnd : p.nondegenerate = true) (hsw : 0 ≤ s.stroke_width.getD 1) :
    ∀ c ∈ p.coords, (p.viewbox s).contains c.x c.y := by
  intro c hc
  obtain ⟨hext, hints⟩ : p.exterior.nondegenerate = true ∧
      p.interiors.all LineString.nondegenerate = true := by
    simpa [Polygon.nondegenerate] using hnd
  refine contains_foldl _ _ _ _ _ (Or.inr ?_)
  rcases List.mem_append.mp hc with hc | hc
  · have hlen : p.exterior.coords.length ≠ 1 := by
      simpa [LineString.nondegenerate] using hext
    rcases mem_coords_endpoint p.exterior hlen c hc with ⟨l, hl, hcl⟩
    refine ⟨l, List.mem_append_left _ hl, ?_⟩
    rcases line_viewbox_contains l s hsw with ⟨h1, h2⟩
    rcases hcl with rfl | rfl
    · exact h1
    · exact h2
  · rcases List.mem_flatten.mp hc with ⟨cs, hcs, hccs⟩
    rcases List.mem_map.mp hcs with ⟨ring, hring, rfl⟩
    have hrnd : ring.coords.length ≠ 1 := by
      have := List.all_eq_true.mp hints ring hring
      simpa [LineString.nondegenerate] using this
    rcases mem_coords_endpoint ring hrnd c hccs with ⟨l, hl, hcl⟩
    refine ⟨l, List.mem_append_right _ ?_, ?_⟩
    · exact List.mem_flatten.mpr ⟨ring.lines, List.mem_map.mpr ⟨ring, hring, rfl⟩, hl⟩
    · rcases line_viewbox_contains l s hsw with ⟨h1, h2⟩
      rcases hcl with rfl | rfl
      · exact h1
      · exact h2

theorem close_coords_sup (ls : LineString) :
    ∀ c ∈ ls.coords, c ∈ ls.close.coords := by
  intro c hc
  unfold LineString.close
  split
  · exact hc
  · split
    · exact hc
    · exact List.mem_append_left _ hc

theorem close_nondegenerate (ls : LineString)
    (h : ls.nondegenerate = true) : ls.close.nondegenerate = true := by
  rcases ls with ⟨coords⟩
  simp only [LineString.nondegenerate, bne_iff_ne, ne_eq] at h ⊢
  cases coords with
  | nil => simp [LineString.close]
  | cons p rest =>
      simp only [LineString.close]
      split
      · simpa using h
      · simp

theorem geomListVb_eq_foldl (gs : List Geometry) (s : Style) (acc : ViewBox) :
    geomListVb gs s acc = gs.foldl (fun vb g => vb.add (g.viewbox s)) acc := by
  induction gs generalizing acc with
  | nil => rfl
  | cons g rest ih => simp [geomListVb, ih]

theorem mem_geomListCoords (gs : List Geometry) (c : Point) :
    c ∈ geomListCoords gs ↔ ∃ g ∈ gs, c ∈ g.coords := by
  induction gs with
  | nil => simp [geomListCoords]
  | cons g rest ih => simp [geomListCoords, ih, List.mem_append]

theorem geomListWf_all (gs : List Geometry) (h : geomListWf gs = true) :
    ∀ g ∈ gs, g.wf = true := by
  induction gs with
  | nil => intro g hg; cases hg
  | cons g0 rest ih =>
      intro g hg
      obtain ⟨h0, hrest⟩ : g0.wf = true ∧ geomListWf rest = true := by
        simpa [geomListWf] using h
      rcases List.mem_cons.mp hg with rfl | hg
      · exact h0
      · exact ih hrest g hg

theorem geom_contains_fuel :
    ∀ (n : Nat) (g : Geometry), sizeOf g ≤ n → ∀ (s : Style), g.wf = true →
      padsOK s → ∀ c ∈ g.coords, (g.viewbox s).contains c.x c.y := by
  intro n
  induction n with
  | zero =>
      intro g hg
      exact absurd hg (by cases g <;> simp_arith)
  | succ n ih =>
      intro g hsize s hwf hp c hc
      cases g with
      | point p =>
          simp only [Geometry.coords, List.mem_singleton] at hc
          subst hc
          exact point_viewbox_contains c s hp.2
      | line l =>
          simp only [Geometry.coords] at hc
          rcases line_viewbox_contains l s hp.1 with ⟨h1, h2⟩
          rcases List.mem_cons.mp hc with rfl | hc
          · exact h1
          · rcases List.mem_singleton.mp hc with rfl
            exact h2
      | lineString ls =>
          exact lineString_viewbox_contains ls s hwf hp.1 c hc
      | polygon p =>
          exact polygon_viewbox_contains p s hwf hp.1 c hc
      | rect r =>
          have hnd : r.to_polygon.nondegenerate = true := by
            simp only [Rect.to_polygon, Polygon.new, Polygon.nondegenerate,
              List.map_nil, List.all_nil, Bool.and_true]
            exact close_nondegenerate _ (by simp [LineString.nondegenerate])
          refine polygon_viewbox_contains r.to_polygon s hnd hp.1 c ?_
          simp only [Rect.to_polygon, Polygon.new, Polygon.coords, List.map_nil,
            List.flatten_nil, List.append_nil]
          refine close_coords_sup _ c ?_
          simp only [Geometry.coords] at hc
          rcases List.mem_cons.mp hc with rfl | hc
          · simp
          · rcases List.mem_cons.mp hc with rfl | hc
            · simp
            · rcases List.mem_cons.mp hc with rfl | hc
              · simp
              · rcases List.mem_singleton.mp hc with rfl
                simp
      | triangle t =>
          have hnd : t.to_polygon.nondegenerate = true := by
            simp only [Triangle.to_polygon, Polygon.new, Polygon.nondegenerate,
              List.map_nil, List.all_nil, Bool.and_true]
            exact close_nondegenerate _ (by simp [LineString.nondegenerate])
          refine polygon_viewbox_contains t.to_polygon s hnd hp.1 c ?_
          simp only [Triangle.to_polygon, Polygon.new, Polygon.coords, List.map_nil,
            List.flatten_nil, List.append_nil]
          refine close_coords_sup _ c ?_
          simp only [Geometry.coords] at hc
          rcases List.mem_cons.mp hc with rfl | hc
          · simp
          · rcases List.mem_cons.mp hc with rfl | hc
            · simp
            · rcases List.mem_singleton.mp hc with rfl
              simp
      | multiPoint mp =>
          simp only [Geometry.coords] at hc
          exact contains_foldl _ _ _ _ _
            (Or.inr ⟨c, hc, point_viewbox_contains c s hp.2⟩)
      | multiLineString m =>
          simp only [Geometry.coords] at hc
          rcases List.mem_flatten.mp hc with ⟨cs, hcs, hccs⟩
          rcases List.mem_map.mp hcs with ⟨ls, hls, rfl⟩
          have hnd := List.all_eq_true.mp hwf ls hls
          exact contains_foldl _ _ _ _ _
            (Or.inr ⟨ls, hls, lineString_viewbox_contains ls s hnd hp.1 c hccs⟩)
      | multiPolygon m =>
          simp only [Geometry.coords] at hc
          rcases List.mem_flatten.mp hc with ⟨cs, hcs, hccs⟩
          rcases List.mem_map.mp hcs with ⟨pg, hpg, rfl⟩
          have hnd := List.all_eq_true.mp hwf pg hpg
          exact contains_foldl _ _ _ _ _
            (Or.inr ⟨pg, hpg, polygon_viewbox_contains pg s hnd hp.1 c hccs⟩)
      | geometryCollection gs =>
          simp only [Geometry.coords] at hc
          rcases (mem_geomListCoords gs c).mp hc with ⟨g, hg, hcg⟩
          have hsub : sizeOf g ≤ n := by
            have h1 := List.sizeOf_lt_of_mem hg
            have h2 : sizeOf (Geometry.geometryCollection gs) = 1 + sizeOf gs := by
              simp
            omega
          have hgwf : g.wf = true := geomListWf_all gs hwf g hg
          show (geomListVb gs s ViewBox.default).contains c.x c.y
          rw [geomListVb_eq_foldl]
          exact contains_foldl _ _ _ _ _
            (Or.inr ⟨g, hg, ih g hsub s hgwf hp c hcg⟩)

/-! ## Character accounting for the rendered fragments -/

theorem charsAll {P : Char → Bool} (s : String) (h : s.data.all P = true) :
    ∀ c ∈ s.data, P c = true :=
  fun c hc => List.all_eq_true.mp h c hc

theorem append_chars {P : Char → Bool} {s t : String}
    (hs : ∀ c ∈ s.data, P c = true) (ht : ∀ c ∈ t.data, P c = true) :
    ∀ c ∈ (s ++ t).data, P c = true := by
  intro c hc
  rw [String.data_append] at hc
  rcases List.mem_append.mp hc with hc | hc
  · exact hs c hc
  · exact ht c hc

theorem count_eq_zero_of_chars {P : Char → Bool} {s : String} {c0 : Char}
    (hP : P c0 = false) (h : ∀ c ∈ s.data, P c = true) : s.data.count c0 = 0 :=
  List.count_eq_zero.mpr fun hm => by rw [h c0 hm] at hP; cases hP

theorem strJoin_chars {P : Char → Bool} (L : List String)
    (h : ∀ u ∈ L, ∀ c ∈ u.data, P c = true) :
    ∀ c ∈ (strJoin L).data, P c = true := by
  induction L with
  | nil => intro c hc; cases hc
  | cons u rest ih =>
      exact append_chars (h u (List.mem_cons_self _ _))
        (ih fun v hv => h v (List.mem_cons_of_mem _ hv))

theorem foldlSp_chars {P : Char → Bool} (hsp : P ' ' = true) (L : List String)
    (acc : String) (hacc : ∀ c ∈ acc.data, P c = true)
    (h : ∀ u ∈ L, ∀ c ∈ u.data, P c = true) :
    ∀ c ∈ (L.foldl (fun a b => a ++ " " ++ b) acc).data, P c = true := by
  induction L generalizing acc with
  | nil => exact hacc
  | cons u rest ih =>
      refine ih _ ?_ fun v hv => h v (List.mem_cons_of_mem _ hv)
      refine append_chars (append_chars hacc ?_) (h u (List.mem_cons_self _ _))
      intro c hc
      rcases List.mem_singleton.mp hc with rfl
      exact hsp

theorem joinSp_chars {P : Char → Bool} (hsp : P ' ' = true) (L : List String)
    (h : ∀ u ∈ L, ∀ c ∈ u.data, P c = true) :
    ∀ c ∈ (joinSp L).data, P c = true := by
  cases L with
  | nil => intro c hc; cases hc
  | cons u rest =>
      exact foldlSp_chars hsp rest u (h u (List.mem_cons_self _ _))
        fun v hv => h v (List.mem_cons_of_mem _ hv)

theorem segStr_chars (l : Line) : ∀ c ∈ (segStr l).data, pathChar c = true := by
  refine append_chars (append_chars (append_chars (append_chars (append_chars
    (append_chars (append_chars (charsAll "M " (by decide)) (fmtF_chars _))
    (charsAll " " (by decide))) (fmtF_chars _)) (charsAll " L " (by decide)))
    (fmtF_chars _)) (charsAll "  " (by decide))) (fmtF_chars _)

theorem lineStringD_chars (ls : LineString) :
    ∀ c ∈ (lineStringD ls).data, pathChar c = true :=
  joinSp_chars rfl _ fun u hu => by
    rcases List.mem_map.mp hu with ⟨l, _, rfl⟩
    exact segStr_chars l

theorem contourBody_chars (q : Point) (rest : List Point) :
    ∀ c ∈ ("M " ++ fmtF q.x ++ " " ++ fmtF q.y ++
      strJoin (rest.map fun v => " L " ++ fmtF v.x ++ " " ++ fmtF v.y)).data,
      pathChar c = true := by
  refine append_chars (append_chars (append_chars (append_chars
    (charsAll _ (by decide)) (fmtF_chars _)) (charsAll _ (by decide)))
    (fmtF_chars _)) (strJoin_chars _ ?_)
  intro u hu
  rcases List.mem_map.mp hu with ⟨v, _, rfl⟩
  exact append_chars (append_chars (append_chars (charsAll _ (by decide))
    (fmtF_chars _)) (charsAll _ (by decide))) (fmtF_chars _)

theorem contourPath_count (c : LineString) :
    (contourPath c).data.count 'Z' = 1 := by
  unfold contourPath
  rw [String.data_append, List.count_append]
  have h2 : (" Z " : String).data.count 'Z' = 1 := by decide
  rw [h2]
  have h1 : (match c.coords with
      | [] => ""
      | p :: rest =>
          "M " ++ fmtF p.x ++ " " ++ fmtF p.y ++
            strJoin (rest.map fun q => " L " ++ fmtF q.x ++ " " ++ fmtF q.y) :
        String).data.count 'Z' = 0 := by
    split
    · rfl
    · exact count_eq_zero_of_chars rfl (contourBody_chars _ _)
  rw [h1]

theorem contourPath_empty (c : LineString) (h : c.coords = []) :
    contourPath c = " Z " := by
  rcases c with ⟨cs⟩
  simp only at h
  subst h
  rfl

theorem strJoin_map_contour_count (rings : List LineString) :
    (strJoin (rings.map contourPath)).data.count 'Z' = rings.length := by
  induction rings with
  | nil => rfl
  | cons r rest ih =>
      simp only [List.map_cons, strJoin, String.data_append, List.count_append,
        ih, contourPath_count, List.length_cons]
      omega

theorem pathD_count (p : Polygon) :
    countChar 'Z' p.pathD = 1 + p.interiors.length := by
  unfold countChar Polygon.pathD
  rw [show (p.exterior :: p.interiors).map contourPath =
      contourPath p.exterior :: p.interiors.map contourPath from rfl]
  simp only [strJoin, String.data_append, List.count_append, contourPath_count,
    strJoin_map_contour_count]

/-- A string append with the empty string on the right. -/
theorem str_append_empty (s : String) : s ++ "" = s := by
  rcases s with ⟨l⟩
  show String.mk (l ++ []) = String.mk l
  rw [List.append_nil]

/-! ## Concrete values used by witnesses -/

/-- A style with every optional field absent, radius zero and empty
attribute output. -/
def plainStyle : Style :=
  { point_type := none, text := none, text_classes := none,
    text_start_offset := none, id := none, radius := 0,
    stroke_width := none, icon_svg_viewbox := none,
    icon_svg_width_height := none, icon_svg_path := none, attrs := "" }

theorem optOp_min_comm (a b : Option ℚ) : optOp min a b = optOp min b a := by
  cases a <;> cases b <;> simp [optOp, min_comm]

theorem optOp_max_comm (a b : Option ℚ) : optOp max a b = optOp max b a := by
  cases a <;> cases b <;> simp [optOp, max_comm]

theorem optOp_min_assoc (a b c : Option ℚ) :
    optOp min (optOp min a b) c = optOp min a (optOp min b c) := by
  cases a <;> cases b <;> cases c <;> simp [optOp, min_assoc]

theorem optOp_max_assoc (a b c : Option ℚ) :
    optOp max (optOp max a b) c = optOp max a (optOp max b c) := by
  cases a <;> cases b <;> cases c <;> simp [optOp, max_assoc]

/-! ## The claims -/

/-- C1 (counterexample): the sanity containment law fails as stated. A
line string holding the single coordinate `(5, 7)` spans no
consecutive-pair segment, so its bound is the identity rectangle
`ViewBox::default()`, which contains no coordinate at all — in
particular not `(5, 7)`, a coordinate of the geometry, even under a
benign style with nonnegative padding. -/
theorem bound_contains_coords_counterexample :
    (⟨5, 7⟩ : Point) ∈ Geometry.coords (.lineString ⟨[⟨5, 7⟩]⟩) ∧
      ¬ (Geometry.viewbox (.lineString ⟨[⟨5, 7⟩]⟩) plainStyle).contains 5 7 := by
  constructor
  · simp [Geometry.coords]
  · rw [show Geometry.viewbox (.lineString ⟨[⟨5, 7⟩]⟩) plainStyle =
        ViewBox.default from rfl]
    rintro ⟨h, -⟩
    exact h

/-- C1 (amended): for every geometry in which no line string or ring has
exactly one coordinate, and every style whose stroke padding
`stroke_width.unwrap_or(1.0)` and point padding
`radius + stroke_width.unwrap_or(1.0)` are nonnegative, the rectangle
returned by `bound` contains every coordinate of the geometry. -/
theorem bound_contains_coords (g : Geometry) (s : Style) (hwf : g.wf = true)
    (h1 : 0 ≤ s.stroke_width.getD 1) (h2 : 0 ≤ s.radius + s.stroke_width.getD 1) :
    ∀ c ∈ g.coords, (g.viewbox s).contains c.x c.y :=
  geom_contains_fuel (sizeOf g) g le_rfl s hwf ⟨h1, h2⟩

unseal Rat.add Rat.sub Rat.mul Rat.inv in
/-- C1 (witness): the amended containment law evaluated on the point
`(2, 3)` under the plain style. -/
theorem bound_contains_coords_witness :
    (Geometry.viewbox (.point ⟨2, 3⟩) plainStyle).contains 2 3 :=
  bound_contains_coords (.point ⟨2, 3⟩) plainStyle (by decide) (by decide)
    (by decide) ⟨2, 3⟩ (by simp [Geometry.coords])

/-- C2: for every point and style, the bound is the square centered on
the point with half-extent `radius + stroke_width.unwrap_or(1.0)`, and
it does not depend on which point-display mode (if any) the style
selects. -/
theorem point_bound_square (p : Point) (s : Style) :
    Point.viewbox p s =
      ViewBox.new (p.x - (s.radius + s.stroke_width.getD 1))
        (p.y - (s.radius + s.stroke_width.getD 1))
        (p.x + (s.radius + s.stroke_width.getD 1))
        (p.y + (s.radius + s.stroke_width.getD 1)) ∧
    ∀ m : Option PointType,
      Point.viewbox p { s with point_type := m } = Point.viewbox p s :=
  ⟨rfl, fun _ => rfl⟩

/-- C3: `add` is the componentwise union (min of minima, max of
maxima), it is commutative and associative, and `default()` is a left
identity for it. -/
theorem viewbox_add_laws (a b c : ViewBox) :
    a.add b = ⟨optOp min a.min_x b.min_x, optOp min a.min_y b.min_y,
               optOp max a.max_x b.max_x, optOp max a.max_y b.max_y⟩ ∧
    a.add b = b.add a ∧
    (a.add b).add c = a.add (b.add c) ∧
    ViewBox.default.add a = a := by
  refine ⟨rfl, ?_, ?_, rfl⟩
  · simp only [ViewBox.add, optOp_min_comm, optOp_max_comm]
  · simp only [ViewBox.add, optOp_min_assoc, optOp_max_assoc]

/-- C4: the bound of a line is the union of the point bounds of its two
endpoints under the style with `radius` overridden to zero, every other
style field taken unchanged. -/
theorem line_bound_endpoints (l : Line) (s : Style) :
    Line.viewbox l s =
      (Point.viewbox l.start { s with radius := 0 }).add
        (Point.viewbox l.endp { s with radius := 0 }) ∧
    ({ s with radius := 0 } : Style).radius = 0 ∧
    ({ s with radius := 0 } : Style).point_type = s.point_type ∧
    ({ s with radius := 0 } : Style).text = s.text ∧
    ({ s with radius := 0 } : Style).text_classes = s.text_classes ∧
    ({ s with radius := 0 } : Style).text_start_offset = s.text_start_offset ∧
    ({ s with radius := 0 } : Style).id = s.id ∧
    ({ s with radius := 0 } : Style).stroke_width = s.stroke_width ∧
    ({ s with radius := 0 } : Style).icon_svg_viewbox = s.icon_svg_viewbox ∧
    ({ s with radius := 0 } : Style).icon_svg_width_height = s.icon_svg_width_height ∧
    ({ s with radius := 0 } : Style).icon_svg_path = s.icon_svg_path ∧
    ({ s with radius := 0 } : Style).attrs = s.attrs :=
  ⟨rfl, rfl, rfl, rfl, rfl, rfl, rfl, rfl, rfl, rfl, rfl, rfl⟩

/-- C7: a rectangle renders and bounds exactly as its equivalent
four-corner polygon with no holes, a triangle as its equivalent
three-corner polygon with no holes, both through the direct impls and
through the variant dispatcher. -/
theorem rect_triangle_as_polygon (r : Rect) (t : Triangle) (s : Style) :
    Rect.to_svg_str r s = r.to_polygon.to_svg_str s ∧
    Rect.viewbox r s = r.to_polygon.viewbox s ∧
    Geometry.to_svg_str (.rect r) s = r.to_polygon.to_svg_str s ∧
    Geometry.viewbox (.rect r) s = r.to_polygon.viewbox s ∧
    Triangle.to_svg_str t s = t.to_polygon.to_svg_str s ∧
    Triangle.viewbox t s = t.to_polygon.viewbox s ∧
    Geometry.to_svg_str (.triangle t) s = t.to_polygon.to_svg_str s ∧
    Geometry.viewbox (.triangle t) s = t.to_polygon.viewbox s ∧
    r.to_polygon.interiors = [] ∧
    t.to_polygon.interiors = [] ∧
    r.to_polygon.exterior = LineString.close
      ⟨[⟨r.min.x, r.min.y⟩, ⟨r.max.x, r.min.y⟩, ⟨r.max.x, r.max.y⟩,
        ⟨r.min.x, r.max.y⟩, ⟨r.min.x, r.min.y⟩]⟩ ∧
    t.to_polygon.exterior = LineString.close ⟨[t.v0, t.v1, t.v2]⟩ :=
  ⟨rfl, rfl, rfl, rfl, rfl, rfl, rfl, rfl, rfl, rfl, rfl, rfl⟩

/-- C9: every empty sequence-like input renders to the empty string and
bounds to the `ViewBox::default()` identity: the generic `Vec`/slice
adapter, the three `Multi*` wrappers and the geometry collection. -/
theorem empty_containers (α : Type) [ToSvgStr α] (s : Style) :
    listToSvgStr ([] : List α) s = "" ∧
    listViewbox ([] : List α) s = ViewBox.default ∧
    MultiPoint.to_svg_str ⟨[]⟩ s = "" ∧
    MultiPoint.viewbox ⟨[]⟩ s = ViewBox.default ∧
    MultiLineString.to_svg_str ⟨[]⟩ s = "" ∧
    MultiLineString.viewbox ⟨[]⟩ s = ViewBox.default ∧
    MultiPolygon.to_svg_str ⟨[]⟩ s = "" ∧
    MultiPolygon.viewbox ⟨[]⟩ s = ViewBox.default ∧
    Geometry.to_svg_str (.geometryCollection []) s = "" ∧
    Geometry.viewbox (.geometryCollection []) s = ViewBox.default :=
  ⟨rfl, rfl, rfl, rfl, rfl, rfl, rfl, rfl, rfl, rfl⟩

/-- A nonempty ring renders as one closed subpath: a move-to to its
first vertex, a line-to per later vertex, and a single terminating `Z`
(no `Z` occurs before it). -/
def closedSubpath (ring : LineString) : Prop :=
  ∃ q rest, ring.coords = q :: rest ∧
    contourPath ring =
      ("M " ++ fmtF q.x ++ " " ++ fmtF q.y ++
        strJoin (rest.map fun v => " L " ++ fmtF v.x ++ " " ++ fmtF v.y)) ++ " Z " ∧
    countChar 'Z' ("M " ++ fmtF q.x ++ " " ++ fmtF q.y ++
        strJoin (rest.map fun v => " L " ++ fmtF v.x ++ " " ++ fmtF v.y)) = 0

theorem closedSubpath_of_ne (ring : LineString) (h : ring.coords ≠ []) :
    closedSubpath ring := by
  rcases ring with ⟨cs⟩
  cases cs with
  | nil => exact absurd rfl h
  | cons q rest =>
      exact ⟨q, rest, rfl, rfl,
        count_eq_zero_of_chars rfl (contourBody_chars q rest)⟩

/-- C10: the rendered polygon path carries one closing `Z` command per
ring — exactly `1 + (number of interior rings)` — and a ring with no
vertices still contributes its `Z`, preceded by no move-to or line-to
for that ring. -/
theorem polygon_z_per_ring (p : Polygon) (s : Style) :
    Polygon.to_svg_str p s =
      "<path fill-rule=\"evenodd\" d=\"" ++ p.pathD ++ "\"" ++ s.attrs ++ "/>" ∧
    countChar 'Z' p.pathD = 1 + p.interiors.length ∧
    (∀ ring : LineString, ring.coords = [] → contourPath ring = " Z ") :=
  ⟨rfl, pathD_count p, fun ring h => contourPath_empty ring h⟩

/-- C6: a polygon with a nonempty exterior and exactly one nonempty
hole renders as a single path element under the even-odd fill rule
whose data is exactly two closed subpaths, the exterior's first and the
hole's second, each a move-to, line-tos and a final `Z`. -/
theorem polygon_one_hole (p : Polygon) (h : LineString) (s : Style)
    (hint : p.interiors = [h]) (hext : p.exterior.coords ≠ [])
    (hh : h.coords ≠ []) :
    Polygon.to_svg_str p s =
      "<path fill-rule=\"evenodd\" d=\"" ++ p.pathD ++ "\"" ++ s.attrs ++ "/>" ∧
    p.pathD = contourPath p.exterior ++ contourPath h ∧
    countChar 'Z' p.pathD = 2 ∧
    closedSubpath p.exterior ∧ closedSubpath h := by
  have hd : p.pathD = contourPath p.exterior ++ contourPath h := by
    unfold Polygon.pathD
    rw [hint]
    show contourPath p.exterior ++ (contourPath h ++ "") = _
    rw [str_append_empty]
  refine ⟨rfl, hd, ?_, closedSubpath_of_ne _ hext, closedSubpath_of_ne _ hh⟩
  rw [pathD_count p, hint]
  rfl

/-- A square with one triangular hole, used to evaluate C6. -/
def polygonW : Polygon :=
  ⟨⟨[⟨0, 0⟩, ⟨4, 0⟩, ⟨4, 4⟩, ⟨0, 4⟩]⟩, [⟨[⟨1, 1⟩, ⟨2, 1⟩, ⟨2, 2⟩]⟩]⟩

/-- C6 (witness): the square-with-one-hole polygon's path data holds
exactly two `Z` commands. -/
theorem polygon_one_hole_witness : countChar 'Z' (Polygon.pathD polygonW) = 2 :=
  (polygon_one_hole polygonW ⟨[⟨1, 1⟩, ⟨2, 1⟩, ⟨2, 2⟩]⟩ plainStyle rfl
    (by decide) (by decide)).2.2.1

/-! ## The text-on-path claim -/

/-- The opening piece of the text-on-path element, up to and including
the closing quote of the `xlink:href` target. -/
def textPathOpen (s : Style) : String :=
  "<text class=\"" ++ (s.text_classes.getD "") ++ "\"><textPath xlink:href=\"#" ++
    (s.id.getD "") ++ "\""

/-- The closing piece of the text-on-path element, from the `>` after
the optional start offset on. -/
def textPathClose (s : Style) : String :=
  ">" ++ (s.text.getD "") ++ "<textPath/></text>"

theorem hasSub_head_start {p s t : List Char} (hp : '<' ∈ p)
    (hs : s = '<' :: t) (ht : t.count '<' = 0) (h : hasSub p s = true) :
    ∃ r, s = p ++ r := by
  rcases (hasSub_iff p s).mp h with ⟨l, r, hdec⟩
  cases l with
  | nil => exact ⟨r, by simpa using hdec⟩
  | cons e l2 =>
      subst hs
      rw [List.cons_append] at hdec
      have ht2 : t = l2 ++ (p ++ r) := ((List.cons.injEq _ _ _ _).mp hdec).2
      have hc : t.count '<' = l2.count '<' + (p.count '<' + r.count '<') := by
        rw [ht2, List.count_append, List.count_append]
      have hpc : p.count '<' = 0 := by omega
      exact absurd hp (List.count_eq_zero.mp hpc)

theorem textPart_none {s : Style} (h : s.text = none ∨ s.id = none) :
    textPart s = "" := by
  unfold textPart
  rcases h with h | h
  · rw [h]
  · rw [h]
    cases s.text <;> rfl

theorem textPart_some {s : Style} {t i : String} (ht : s.text = some t)
    (hi : s.id = some i) :
    textPart s =
      "<text class=\"" ++ (s.text_classes.getD "") ++
        "\"><textPath xlink:href=\"#" ++ i ++ "\"" ++ startOffsetAttr s ++
        ">" ++ t ++ "<textPath/></text>" := by
  unfold textPart
  rw [ht, hi]

theorem count_lt_lineStringD (ls : LineString) :
    (lineStringD ls).data.count '<' = 0 :=
  count_eq_zero_of_chars rfl (lineStringD_chars ls)

/-- The path element's characters after the leading `<` hold no further
`<` when the style attribute output holds none. -/
theorem pathElem_tail_count (ls : LineString) (s : Style)
    (hA : countChar '<' s.attrs = 0) :
    (("path d=\"" : String).data ++ ((lineStringD ls).data ++
      (("\"" : String).data ++ (s.attrs.data ++
        ("/>" : String).data)))).count '<' = 0 := by
  simp only [List.count_append]
  rw [count_lt_lineStringD]
  have h1 : (("path d=\"" : String).data).count '<' = 0 := by decide
  have h2 : (("\"" : String).data).count '<' = 0 := by decide
  have h3 : (("/>" : String).data).count '<' = 0 := by decide
  rw [h1, h2, h3]
  unfold countChar at hA
  rw [hA]

theorem to_svg_str_data_none (ls : LineString) (s : Style)
    (h0 : textPart s = "") :
    (ls.to_svg_str s).data =
      '<' :: (("path d=\"" : String).data ++ ((lineStringD ls).data ++
        (("\"" : String).data ++ (s.attrs.data ++ ("/>" : String).data)))) := by
  unfold LineString.to_svg_str
  rw [h0, str_append_empty]
  simp [String.data_append, List.append_assoc, List.cons_append]

/-- C5: a line-string render holds a text-on-path element exactly when
both `text` and `id` are set (assuming the opaque attribute output
holds no `<`); when both are set the element references the style's
`id` through `xlink:href`, and its start-offset slot holds a
`startOffset` attribute exactly when `text_start_offset` is present
(empty otherwise). -/
theorem lineString_text_on_path (ls : LineString) (s : Style)
    (hA : countChar '<' s.attrs = 0) :
    (containsStr (ls.to_svg_str s) "<textPath" = (s.text.isSome && s.id.isSome)) ∧
    (∀ t i, s.text = some t → s.id = some i →
      containsStr (ls.to_svg_str s) ("xlink:href=\"#" ++ i) = true ∧
      textPart s = textPathOpen s ++ (startOffsetAttr s ++ textPathClose s)) ∧
    (∀ o, s.text_start_offset = some o →
      startOffsetAttr s = "startOffset=\"" ++ fmtDisp o ++ "\"") ∧
    (s.text_start_offset = none → startOffsetAttr s = "") := by
  have hneg : (s.text = none ∨ s.id = none) →
      containsStr (ls.to_svg_str s) "<textPath" = false := by
    intro h0
    cases hsub : containsStr (ls.to_svg_str s) "<textPath" with
    | false => rfl
    | true =>
        exfalso
        unfold containsStr at hsub
        rcases hasSub_head_start (p := ("<textPath" : String).data)
          (by decide) (to_svg_str_data_none ls s (textPart_none h0))
          (pathElem_tail_count ls s hA) hsub with ⟨r, hr⟩
        rw [to_svg_str_data_none ls s (textPart_none h0)] at hr
        simp at hr
  refine ⟨?_, ?_, ?_, ?_⟩
  · cases ht : s.text with
    | none =>
        rw [hneg (Or.inl ht)]
        rfl
    | some t =>
        cases hi : s.id with
        | none =>
            rw [hneg (Or.inr hi)]
            simp
        | some i =>
            simp only [Option.isSome_some, Bool.and_self]
            unfold containsStr
            refine hasSub_of_decomp
              (("<path d=\"" ++ lineStringD ls ++ "\"" ++ s.attrs ++ "/>" ++
                "<text class=\"" ++ (s.text_classes.getD "") ++ "\">").data)
              ((" xlink:href=\"#" ++ i ++ "\"" ++ startOffsetAttr s ++ ">" ++
                t ++ "<textPath/></text>").data) ?_
            unfold LineString.to_svg_str
            rw [textPart_some ht hi]
            simp [String.data_append, List.append_assoc, List.cons_append]
  · intro t i ht hi
    constructor
    · unfold containsStr
      refine hasSub_of_decomp
        (("<path d=\"" ++ lineStringD ls ++ "\"" ++ s.attrs ++ "/>" ++
          "<text class=\"" ++ (s.text_classes.getD "") ++ "\"><textPath ").data)
        (("\"" ++ startOffsetAttr s ++ ">" ++ t ++ "<textPath/></text>").data) ?_
      unfold LineString.to_svg_str
      rw [textPart_some ht hi]
      simp [String.data_append, List.append_assoc, List.cons_append]
    · rw [textPart_some ht hi]
      unfold textPathOpen textPathClose
      rw [hi, ht]
      apply String.ext
      simp [String.data_append, List.append_assoc, List.cons_append]
  · intro o ho
    unfold startOffsetAttr
    rw [ho]
  · intro ho
    unfold startOffsetAttr
    rw [ho]

/-- A style with label text, an identifier and a start offset set. -/
def styleTextW : Style :=
  { plainStyle with
    text := some "Main St", id := some "p1", text_start_offset := some 5 }

/-- A two-point line string used to evaluate C5. -/
def lineStringW : LineString := ⟨[⟨0, 0⟩, ⟨1, 0⟩]⟩

/-- C5 (witness): the text-on-path law evaluated on a concrete
two-point line string under a style with text, id and offset set. -/
theorem lineString_text_on_path_witness :
    containsStr (LineString.to_svg_str lineStringW styleTextW) "<textPath" =
      (styleTextW.text.isSome && styleTextW.id.isSome) :=
  (lineString_text_on_path lineStringW styleTextW (by decide)).1

/-- The plain style with the Poi point mode selected and every icon
field left absent, so the defaults 60×60 and `0 0 100 100` apply. -/
def poiStyle : Style := { plainStyle with point_type := some PointType.Poi }

unseal Rat.add Rat.sub Rat.mul Rat.inv in
/-- C8: the point (0,0) in Poi mode with no text and the default icon
size and viewbox renders as one inner svg element with x=-30, y=-30,
width=60, height=60 and inner viewBox `0 0 100 100`, and no text
element follows it. -/
theorem poi_default_render :
    Point.to_svg_str ⟨0, 0⟩ poiStyle =
      "<svg x=\"-30.0\" y=\"-30.0\" width=\"60\" height=\"60\" viewBox=\"0 0 100 100\" ></svg>" ∧
    containsStr (Point.to_svg_str ⟨0, 0⟩ poiStyle) "<text" = false := by
  constructor
  · decide
  · decide

end GeoSvg
